import Mathlib

/-!
Shallow embedding of `qiime2/core/type/signature.py`: the `ParameterSpec`
descriptor, the `PipelineSignature` family (parsing, validation, coercion,
type-variable solving, output materialization) and `HashableInvocation`
call fingerprinting, together with theorems settling the spec's claims.

The symbolic type algebra (membership, variable extraction, concreteness,
unification) is an external collaborator of this module; it is embedded as
data carried by each type expression (`QType`): a name, its fields, its
syntactic kind, semantic/primitive classification, its free variables with
polarity, and a membership predicate on runtime values.
-/

namespace QiimeSig

/-- Python's `_NOVALUE` sentinel: distinguishes "not provided" from an
explicitly provided value (including an explicit `None`). -/
inductive PyOpt (α : Type) where
  | novalue
  | val (a : α)
deriving DecidableEq, Repr

def PyOpt.isVal {α : Type} : PyOpt α → Bool
  | .novalue => false
  | .val _ => true

/-- Runtime values passed as arguments at call time, classified by the
shapes `check_types` dispatches on (`qiime2.sdk.Visualization`,
`qiime2.sdk.Artifact`, `qiime2.Metadata`, anything else) plus `None`. -/
inductive Value where
  | none
  | visualization
  | artifact (typeName : String)
  | metadata
  | prim (s : String)
deriving DecidableEq, Repr

/-- Syntactic kind of a symbolic type expression (`TypeExp`, `UnionExp`,
`TypeVarExp` from the grammar module, or anything else). -/
inductive TypeKind where
  | typeExp
  | unionExp
  | typeVarExp
  | other
deriving DecidableEq, Repr

/-- A free type variable occurring in a type expression, with its
input/output polarity (`var.input`, `var.output`). -/
structure TypeVar where
  input : Bool
  output : Bool
deriving DecidableEq, Repr

/-- A symbolic QIIME type expression, embedded as the data this module
observes of it: its `name`, its `fields`, its syntactic kind, the
`is_semantic_type` / `is_primitive_type` classification, the list of free
variables `meta.select_variables` would yield, and the membership
predicate `value in type`. -/
inductive QType where
  | mk (name : String) (fields : List QType) (kind : TypeKind)
       (isSemantic : Bool) (isPrimitive : Bool)
       (tvars : List TypeVar) (mem : Value → Bool)

def QType.name : QType → String
  | .mk n _ _ _ _ _ _ => n

def QType.fields : QType → List QType
  | .mk _ f _ _ _ _ _ => f

def QType.kind : QType → TypeKind
  | .mk _ _ k _ _ _ _ => k

def QType.isSemantic : QType → Bool
  | .mk _ _ _ s _ _ _ => s

def QType.isPrimitive : QType → Bool
  | .mk _ _ _ _ p _ _ => p

def QType.tvars : QType → List TypeVar
  | .mk _ _ _ _ _ v _ => v

def QType.mem : QType → Value → Bool
  | .mk _ _ _ _ _ _ m => m

/-- `list(meta.select_variables(t))` is truthy: the type has a free
variable. -/
def QType.hasVars (t : QType) : Bool := !t.tvars.isEmpty

/-- Modelled from the spec: `is_concrete` lives in the type-algebra
collaborator (grammar module), not in this source file. Glossary:
"Concrete type: a symbolic type expression containing no free type
variables." -/
def QType.is_concrete (t : QType) : Bool := t.tvars.isEmpty

/-- Modelled from the spec: `is_collection_type` is imported from the type
algebra's util module, not in this source file. Glossary: "Collection
kind: a parametrized container semantic type — ordered (`List`),
unordered-unique (`Set`), or keyed (`Collection`) — over an element
type." -/
def is_collection_type (t : QType) : Bool :=
  t.name = "List" || t.name = "Set" || t.name = "Collection"

/-- A Python class, identified by name, with an optional parent class
(enough to express strict subclassing). `type(x) is C` compares class
identity, i.e. equality here. -/
structure PyClass where
  name : String
  parent : Option String := Option.none
deriving DecidableEq, Repr

/-- `cls` is a strict subclass of `c`: distinct and derived from it. -/
def PyClass.strictSubclassOf (cls c : PyClass) : Bool :=
  cls.parent = Option.some c.name && cls ≠ c

/-- `ParameterSpec`: one input, parameter or output slot. In this module
every constructed spec carries a `qiime_type`; the other three fields
default to the `NOVALUE` sentinel. -/
structure ParameterSpec where
  qiime_type : QType
  view_type : PyOpt PyClass := .novalue
  default : PyOpt Value := .novalue
  description : PyOpt String := .novalue

def ParameterSpec.has_view_type (s : ParameterSpec) : Bool := s.view_type.isVal

def ParameterSpec.has_default (s : ParameterSpec) : Bool := s.default.isVal

def ParameterSpec.has_description (s : ParameterSpec) : Bool := s.description.isVal

/-- Association-list lookup with string keys (Python `dict` access). -/
def alookup {α : Type} (kvs : List (String × α)) (k : String) : Option α :=
  match kvs with
  | [] => Option.none
  | (k', v) :: rest => if k' = k then Option.some v else alookup rest k

/-- `d.pop(k)` where the key must exist: returns the value and the dict
without that key (first occurrence). -/
def apop {α : Type} (kvs : List (String × α)) (k : String) :
    Option (α × List (String × α)) :=
  match kvs with
  | [] => Option.none
  | (k', v) :: rest =>
    if k' = k then Option.some (v, rest)
    else match apop rest k with
      | Option.none => Option.none
      | Option.some (a, rest') => Option.some (a, (k', v) :: rest')

/-- `d.pop(k, NOVALUE)`: returns the value-or-sentinel and the remaining
dict. -/
def apopD {α : Type} (kvs : List (String × α)) (k : String) :
    PyOpt α × List (String × α) :=
  match apop kvs k with
  | Option.none => (.novalue, kvs)
  | Option.some (a, rest) => (.val a, rest)

/-! ## `check_types` -/

/-- The errors `check_types` raises: a `KeyError` on a missing keyword
argument, and the four offender-specific `TypeError` categories. -/
inductive CheckErr where
  | keyError (name : String)
  | visualizationAsInput (name : String)
  | wrongTypeArtifact (name : String) (artifactType : String)
  | metadataIncompatible (name : String)
  | primitiveMismatch (name : String) (v : Value)
deriving DecidableEq, Repr

/-- The raising condition of `check_types` for one entry:
`(parameter not in spec.qiime_type) and not (spec.has_default() and
spec.default is None and parameter is None)`. -/
def type_violation (spec : ParameterSpec) (v : Value) : Bool :=
  !spec.qiime_type.mem v &&
    !(spec.has_default && spec.default == PyOpt.val Value.none && v == Value.none)

/-- The offender-shape dispatch of `check_types`: `Visualization`,
`Artifact`, `Metadata`, then the generic primitive branch. -/
def offender_error (name : String) : Value → CheckErr
  | Value.visualization => CheckErr.visualizationAsInput name
  | Value.artifact t => CheckErr.wrongTypeArtifact name t
  | Value.metadata => CheckErr.metadataIncompatible name
  | v => CheckErr.primitiveMismatch name v

/-- `PipelineSignature.check_types`: walk `signature_order`, look the name
up in the keyword arguments, and raise on the first type violation. -/
def check_types (order : List (String × ParameterSpec))
    (kwargs : List (String × Value)) : Except CheckErr Unit :=
  match order with
  | [] => Except.ok ()
  | (name, spec) :: rest =>
    match alookup kwargs name with
    | Option.none => Except.error (CheckErr.keyError name)
    | Option.some v =>
      if type_violation spec v then Except.error (offender_error name v)
      else check_types rest kwargs

/-! ## `decode_parameters` -/

/-- `PipelineSignature.decode_parameters`. `parse_primitive` is the
external primitive-parsing collaborator, passed in as a function. A
declared parameter missing from `kwargs` is a `KeyError`. -/
def decode_parameters (parse_primitive : QType → Value → Value)
    (parameters : List (String × ParameterSpec))
    (kwargs : List (String × Value)) : Except String (List (String × Value)) :=
  match parameters with
  | [] => Except.ok []
  | (key, spec) :: rest =>
    match alookup kwargs key with
    | Option.none => Except.error ("KeyError: " ++ key)
    | Option.some v =>
      let decoded :=
        if spec.has_default && spec.default == PyOpt.val Value.none &&
            v == Value.none then
          Value.none
        else parse_primitive spec.qiime_type v
      match decode_parameters parse_primitive rest kwargs with
      | Except.error e => Except.error e
      | Except.ok ps => Except.ok ((key, decoded) :: ps)

/-! ## The signature record and `solve_output` -/

/-- The fields a successfully constructed signature carries. -/
structure Sig where
  inputs : List (String × ParameterSpec)
  parameters : List (String × ParameterSpec)
  outputs : List (String × ParameterSpec)
  signature_order : List (String × ParameterSpec)

/-- The slow path's `s.duplicate(qiime_type=solved[k])` over the declared
outputs: each output's type is replaced by its solved binding. -/
def duplicate_outputs (solved : List (String × QType)) :
    List (String × ParameterSpec) → Except String (List (String × ParameterSpec))
  | [] => Except.ok []
  | (k, s) :: rest =>
    match alookup solved k with
    | Option.none => Except.error ("KeyError: " ++ k)
    | Option.some t =>
      match duplicate_outputs solved rest with
      | Except.error e => Except.error e
      | Except.ok acc => Except.ok ((k, { s with qiime_type := t }) :: acc)

/-- `PipelineSignature.solve_output`. The slow path's variable resolution
(`self._infer_type` over the actual arguments followed by `meta.match`,
both external collaborators of the fast path) is abstracted as
`match_oracle`, which takes the declared input/parameter types, the
declared output types and the call's arguments and yields the solved
output types or fails. The fast path — no free variable in any spec —
never consults it. After solving, every output must be concrete. -/
def solve_output
    (match_oracle : List (String × QType) → List (String × QType) →
      List (String × Value) → Except String (List (String × QType)))
    (sig : Sig) (kwargs : List (String × Value)) :
    Except String (List (String × ParameterSpec)) :=
  let chain := sig.inputs ++ sig.parameters ++ sig.outputs
  let solvedE : Except String (List (String × ParameterSpec)) :=
    if chain.any (fun p => p.2.qiime_type.hasVars) then
      match match_oracle
          ((sig.inputs ++ sig.parameters).map (fun p => (p.1, p.2.qiime_type)))
          (sig.outputs.map (fun p => (p.1, p.2.qiime_type))) kwargs with
      | Except.error e => Except.error e
      | Except.ok solved => duplicate_outputs solved sig.outputs
    else Except.ok sig.outputs
  match solvedE with
  | Except.error e => Except.error e
  | Except.ok solved_outputs =>
    match solved_outputs.find? (fun p => !p.2.qiime_type.is_concrete) with
    | Option.some p =>
      Except.error ("Solved output " ++ p.1 ++ " must be a concrete type")
    | Option.none => Except.ok solved_outputs

/-! ## Construction-time validation -/

/-- `_assert_valid_inputs`, condition for one input spec (checks applied
in source order; the first failing one is reported). -/
def input_spec_error (name : String) (spec : ParameterSpec) : Option String :=
  if !spec.qiime_type.isSemantic then
    Option.some ("Input " ++ name ++ " must be a semantic QIIME type")
  else if !(spec.qiime_type.kind == TypeKind.typeExp ||
      spec.qiime_type.kind == TypeKind.unionExp) then
    Option.some ("Input " ++ name ++ " must be a complete semantic type expression")
  else if spec.has_default && spec.default != PyOpt.val Value.none then
    Option.some ("Input " ++ name ++ " has a non-None default value")
  else if (spec.qiime_type.tvars.find? (fun v => !v.input)).isSome then
    Option.some "An output variable has been associated with an input type"
  else Option.none

def assert_valid_inputs : List (String × ParameterSpec) → Except String Unit
  | [] => Except.ok ()
  | (n, s) :: rest =>
    match input_spec_error n s with
    | Option.some e => Except.error e
    | Option.none => assert_valid_inputs rest

/-- `_assert_valid_parameters`, condition for one parameter spec. -/
def parameter_spec_error (name : String) (spec : ParameterSpec) : Option String :=
  if !spec.qiime_type.isPrimitive then
    Option.some ("Parameter " ++ name ++ " must be a primitive QIIME type")
  else if !(spec.qiime_type.kind == TypeKind.typeExp ||
      spec.qiime_type.kind == TypeKind.unionExp) then
    Option.some ("Parameter " ++ name ++ " must be a complete primitive type expression")
  else if (match spec.default with
           | PyOpt.val v => v != Value.none && !spec.qiime_type.mem v
           | PyOpt.novalue => false) then
    Option.some ("Default value for parameter " ++ name ++ " is not of its type or None")
  else if (spec.qiime_type.tvars.find? (fun v => !v.input)).isSome then
    Option.some "An output variable has been associated with an input type"
  else Option.none

def assert_valid_parameters : List (String × ParameterSpec) → Except String Unit
  | [] => Except.ok ()
  | (n, s) :: rest =>
    match parameter_spec_error n s with
    | Option.some e => Except.error e
    | Option.none => assert_valid_parameters rest

/-- `_assert_valid_outputs`, condition for one output spec. The source
compares `spec.qiime_type == Visualization`; equality with the
visualization marker type is embedded as a name comparison (the spec's
"the visualization marker"). -/
def output_spec_error (name : String) (spec : ParameterSpec) : Option String :=
  if !(spec.qiime_type.isSemantic || spec.qiime_type.name == "Visualization") then
    Option.some ("Output " ++ name ++ " must be a semantic QIIME type or Visualization")
  else if !(spec.qiime_type.kind == TypeKind.typeVarExp ||
      spec.qiime_type.kind == TypeKind.typeExp) then
    Option.some ("Output " ++ name ++ " must be a complete type expression")
  else if (spec.qiime_type.tvars.find? (fun v => !v.output)).isSome then
    Option.some "An input variable has been associated with an output type"
  else Option.none

def assert_outputs_loop : List (String × ParameterSpec) → Except String Unit
  | [] => Except.ok ()
  | (n, s) :: rest =>
    match output_spec_error n s with
    | Option.some e => Except.error e
    | Option.none => assert_outputs_loop rest

def assert_valid_outputs (outputs : List (String × ParameterSpec)) :
    Except String Unit :=
  if outputs.isEmpty then Except.error "requires at least one output"
  else assert_outputs_loop outputs

def method_outputs_semantic_loop : List (String × ParameterSpec) → Except String Unit
  | [] => Except.ok ()
  | (n, s) :: rest =>
    if !s.qiime_type.isSemantic then
      Except.error ("Output " ++ n ++ " must be a semantic QIIME type")
    else method_outputs_semantic_loop rest

/-- `MethodSignature._assert_valid_outputs`: the base checks plus the
stricter all-semantic requirement. -/
def method_assert_valid_outputs (outputs : List (String × ParameterSpec)) :
    Except String Unit :=
  match assert_valid_outputs outputs with
  | Except.error e => Except.error e
  | Except.ok () => method_outputs_semantic_loop outputs

/-- `PipelineSignature._assert_valid_views`: no input, parameter or
output may carry a view type. -/
def pipeline_assert_valid_views (inputs parameters outputs :
    List (String × ParameterSpec)) : Except String Unit :=
  match (inputs ++ parameters ++ outputs).find? (fun p => p.2.has_view_type) with
  | Option.some p =>
    Except.error ("Pipelines do not support function annotations (found one for parameter: " ++ p.1 ++ ")")
  | Option.none => Except.ok ()

/-- `MethodSignature._assert_valid_views`: every input, parameter and
output must carry a view type. -/
def method_assert_valid_views (inputs parameters outputs :
    List (String × ParameterSpec)) : Except String Unit :=
  match (inputs ++ parameters ++ outputs).find? (fun p => !p.2.has_view_type) with
  | Option.some p =>
    Except.error ("Method is missing a function annotation for parameter: " ++ p.1)
  | Option.none => Except.ok ()

/-! ## `_parse_signature` and construction -/

/-- The `inspect` kinds this module distinguishes: variadic positional
(`*args`), variadic keyword (`**kwargs`), and everything else. -/
inductive ParamKind where
  | positional
  | varPositional
  | varKeyword
deriving DecidableEq, Repr

/-- One formal parameter of the underlying callable as `inspect` reports
it: name, kind, optional view-type annotation, optional default. -/
structure FormalParam where
  name : String
  kind : ParamKind := ParamKind.positional
  annotation : PyOpt PyClass := PyOpt.novalue
  default : PyOpt Value := PyOpt.novalue

/-- The callable being registered: its formal parameters in declaration
order and its (tuplized) return annotation, when present. -/
structure Callable where
  name : String
  formals : List FormalParam
  ret : PyOpt (List PyClass) := PyOpt.novalue

/-- The state the parsing walk threads: the annotated input, parameter
and signature-order maps built so far, and the not-yet-consumed caller
maps. -/
structure ParseState where
  ai : List (String × ParameterSpec)
  ap : List (String × ParameterSpec)
  so : List (String × ParameterSpec)
  inputsLeft : List (String × QType)
  parametersLeft : List (String × QType)
  idescsLeft : List (String × String)
  pdescsLeft : List (String × String)

/-- The formal-parameter walk of `_parse_signature`: variadic kinds are
rejected; leading builtin argument positions must match by name and are
skipped; every other formal must be found (and consumed) in the caller's
`inputs` or `parameters` map, or be a (non-leading) builtin name, else
parsing fails. -/
def parse_loop (class_builtins : List String) (builtins : List String)
    (formals : List FormalParam) (st : ParseState) : Except String ParseState :=
  match formals with
  | [] => Except.ok st
  | f :: rest =>
    if f.kind == ParamKind.varPositional || f.kind == ParamKind.varKeyword then
      Except.error ("Variadic definitions are unsupported: " ++ f.name)
    else
      match builtins with
      | b :: bs =>
        if b != f.name then
          Except.error ("Missing builtin argument " ++ b ++ ", got " ++ f.name)
        else parse_loop class_builtins bs rest st
      | [] =>
        match apop st.inputsLeft f.name with
        | Option.some (qt, inputs') =>
          let dp := apopD st.idescsLeft f.name
          let ps : ParameterSpec :=
            { qiime_type := qt, view_type := f.annotation,
              default := f.default, description := dp.1 }
          parse_loop class_builtins [] rest
            { st with ai := st.ai ++ [(f.name, ps)], so := st.so ++ [(f.name, ps)],
                      inputsLeft := inputs', idescsLeft := dp.2 }
        | Option.none =>
          match apop st.parametersLeft f.name with
          | Option.some (qt, parameters') =>
            let dp := apopD st.pdescsLeft f.name
            let ps : ParameterSpec :=
              { qiime_type := qt, view_type := f.annotation,
                default := f.default, description := dp.1 }
            parse_loop class_builtins [] rest
              { st with ap := st.ap ++ [(f.name, ps)], so := st.so ++ [(f.name, ps)],
                        parametersLeft := parameters', pdescsLeft := dp.2 }
          | Option.none =>
            if class_builtins.contains f.name then
              parse_loop class_builtins [] rest st
            else
              Except.error ("Parameter in callable without QIIME type: " ++ f.name)

/-- Annotated-output construction: declared outputs zipped positionally
against the return annotation's elements, consuming descriptions. -/
def build_outputs_annotated :
    List (String × QType) → List PyClass → List (String × String) →
    List (String × ParameterSpec) × List (String × String)
  | [], _, od => ([], od)
  | _ :: _, [], od => ([], od)
  | (n, qt) :: rest, v :: vs, od =>
    let dp := apopD od n
    let acc := build_outputs_annotated rest vs dp.2
    (((n, { qiime_type := qt, view_type := PyOpt.val v, description := dp.1 })
        :: acc.1), acc.2)

/-- Output construction without a return annotation: no view types. -/
def build_outputs_plain :
    List (String × QType) → List (String × String) →
    List (String × ParameterSpec) × List (String × String)
  | [], od => ([], od)
  | (n, qt) :: rest, od =>
    let dp := apopD od n
    let acc := build_outputs_plain rest dp.2
    (((n, { qiime_type := qt, description := dp.1 }) :: acc.1), acc.2)

/-- `PipelineSignature._parse_signature`: the formal-parameter walk, the
fully-drained check on `inputs`/`parameters`, output construction (with
the arity check against the return annotation), and the fully-drained
check on the description maps. Returns annotated inputs, parameters,
outputs and signature order. -/
def parse_signature (class_builtins : List String) (c : Callable)
    (inputs parameters outputs : List (String × QType))
    (idescs pdescs odescs : List (String × String)) :
    Except String (List (String × ParameterSpec) × List (String × ParameterSpec) ×
      List (String × ParameterSpec) × List (String × ParameterSpec)) :=
  match parse_loop class_builtins class_builtins c.formals
      ⟨[], [], [], inputs, parameters, idescs, pdescs⟩ with
  | Except.error e => Except.error e
  | Except.ok st =>
    if !st.inputsLeft.isEmpty || !st.parametersLeft.isEmpty then
      Except.error "Callable does not have parameter(s)"
    else
      match (match c.ret with
             | PyOpt.val views =>
               if views.length != outputs.length then
                 Except.error "Number of registered outputs does not match annotation"
               else Except.ok (build_outputs_annotated outputs views odescs)
             | PyOpt.novalue => Except.ok (build_outputs_plain outputs odescs)) with
      | Except.error e => Except.error e
      | Except.ok aod =>
        if !st.idescsLeft.isEmpty || !st.pdescsLeft.isEmpty || !aod.2.isEmpty then
          Except.error "Callable does not have parameter(s)/output(s) found in descriptions"
        else Except.ok (st.ai, st.ap, aod.1, st.so)

/-- `__init__` of the signature family, parameterized by the kind's
builtin arguments and its output/view validators: parse, validate, then
freeze the four maps. -/
def mk_signature_with (class_builtins : List String)
    (validOutputs : List (String × ParameterSpec) → Except String Unit)
    (validViews : List (String × ParameterSpec) → List (String × ParameterSpec) →
      List (String × ParameterSpec) → Except String Unit)
    (c : Callable) (inputs parameters outputs : List (String × QType))
    (idescs pdescs odescs : List (String × String)) : Except String Sig := do
  let r ← parse_signature class_builtins c inputs parameters outputs idescs pdescs odescs
  let ai := r.1
  let ap := r.2.1
  let ao := r.2.2.1
  let so := r.2.2.2
  assert_valid_inputs ai
  assert_valid_parameters ap
  validOutputs ao
  validViews ai ap ao
  pure { inputs := ai, parameters := ap, outputs := ao, signature_order := so }

/-- `PipelineSignature(...)`: builtin args `('ctx',)`, base output
validation, pipeline view rule. -/
def mkPipelineSignature : Callable → List (String × QType) → List (String × QType) →
    List (String × QType) → List (String × String) → List (String × String) →
    List (String × String) → Except String Sig :=
  mk_signature_with ["ctx"] assert_valid_outputs pipeline_assert_valid_views

/-- `MethodSignature(...)`: no builtin args, all-semantic outputs, method
view rule. -/
def mkMethodSignature : Callable → List (String × QType) → List (String × QType) →
    List (String × QType) → List (String × String) → List (String × String) →
    List (String × String) → Except String Sig :=
  mk_signature_with [] method_assert_valid_outputs method_assert_valid_views

/-! ## `coerce_given_outputs` and `_create_output_artifact` -/

/-- A produced output view at runtime: an opaque view object with its
concrete class (and an identity tag), a `dict`, a `list`, or a
`ResultCollection`. -/
inductive PyObj where
  | obj (cls : PyClass) (tag : String)
  | pdict (entries : List (String × PyObj))
  | plist (elems : List PyObj)
  | rescol (entries : List (String × PyObj))

/-- `type(x)` of a produced view. -/
def PyObj.type_of : PyObj → PyClass
  | PyObj.obj c _ => c
  | PyObj.pdict _ => { name := "dict" }
  | PyObj.plist _ => { name := "list" }
  | PyObj.rescol _ => { name := "ResultCollection" }

/-- An output artifact, embedded as the arguments of its construction
`Artifact._from_view(qiime_type, view, spec.view_type, prov)`. -/
structure Artifact where
  qiime_type : QType
  view : PyObj
  view_type : PyOpt PyClass
  prov : String

/-- The call's resource-tracking scope: the forked provenance references
and the parent references registered with it. -/
structure Scope where
  refs : List String := []
  parents : List Artifact := []

def Scope.add_reference (s : Scope) (p : String) : Scope :=
  { s with refs := s.refs ++ [p] }

def Scope.add_parent_reference (s : Scope) (a : Artifact) : Artifact × Scope :=
  (a, { s with parents := s.parents ++ [a] })

/-- `provenance.fork(name)`: the forked provenance node, embedded as a
path string. -/
def prov_fork (p : String) (name : String) : String := p ++ "/" ++ name

/-- Modelled from the spec: `create_collection_name` is imported from
`qiime2.core.util`, not in this source file. §6: "a deterministic
collection-member-naming function: `(output_name, key, index, total) →
unique_name`". -/
def create_collection_name (name key : String) (idx size : ℕ) : String :=
  name ++ "[" ++ key ++ "," ++ toString idx ++ "," ++ toString size ++ "]"

/-- Python `dict` assignment on a keyed container: an existing key keeps
its position and gets the new value, a fresh key is appended. -/
def dinsert {α : Type} (kvs : List (String × α)) (k : String) (v : α) :
    List (String × α) :=
  match kvs with
  | [] => [(k, v)]
  | (k', v') :: rest => if k' = k then (k, v) :: rest else (k', v') :: dinsert rest k v

/-- `PipelineSignature._create_output_artifact`: fork provenance at the
member's name, take the collection's first field as the concrete element
type when the declared type is a collection kind, register the fork with
the scope, construct the artifact, and register it with the parent
scope. -/
def create_output_artifact (provenance : String) (name : String) (scope : Scope)
    (spec : ParameterSpec) (view : PyObj) : Except String (Artifact × Scope) :=
  let prov := prov_fork provenance name
  match (if is_collection_type spec.qiime_type then
           match spec.qiime_type.fields with
           | [] => Option.none
           | f :: _ => Option.some f
         else Option.some spec.qiime_type) with
  | Option.none => Except.error ("IndexError: " ++ name)
  | Option.some qt =>
    let scope1 := scope.add_reference prov
    let a : Artifact :=
      { qiime_type := qt, view := view, view_type := spec.view_type, prov := prov }
    let r := scope1.add_parent_reference a
    Except.ok r

/-- The member walk of the `Collection` branch of `coerce_given_outputs`:
`for idx, view in enumerate(values)`, keying by the view's own key when
the view exposes keys and by the positional index otherwise. -/
def coerce_collection_members (provenance output_name : String)
    (spec : ParameterSpec) (keys : Option (List String)) (size : ℕ) :
    List PyObj → ℕ → List (String × Artifact) → Scope →
    Except String (List (String × Artifact) × Scope)
  | [], _, acc, scope => Except.ok (acc, scope)
  | view :: rest, idx, acc, scope =>
    match (match keys with
           | Option.some ks => ks.get? idx
           | Option.none => Option.some (toString idx)) with
    | Option.none => Except.error "IndexError: keys"
    | Option.some key =>
      let collection_name := create_collection_name output_name key idx size
      match create_output_artifact provenance collection_name scope spec view with
      | Except.error e => Except.error e
      | Except.ok r =>
        coerce_collection_members provenance output_name spec keys size rest
          (idx + 1) (dinsert acc key r.1) r.2

/-- One produced output after materialization: a keyed result collection
or a single artifact. -/
inductive OutResult where
  | collection (entries : List (String × Artifact))
  | single (a : Artifact)

/-- `PipelineSignature.coerce_given_outputs`: walk the produced views
zipped against the declared output specs. A `Collection`-typed output's
view is split into members (keys preserved when the view exposes keys,
positional string indices otherwise); any other output's view must have
exactly the declared view type (`type(output_view) is not spec.view_type`
raises), and yields one artifact. -/
def coerce_given_outputs (output_views : List PyObj)
    (output_types : List (String × ParameterSpec)) (scope : Scope)
    (provenance : String) : Except String (List OutResult × Scope) :=
  match output_views, output_types with
  | [], _ => Except.ok ([], scope)
  | _ :: _, [] => Except.ok ([], scope)
  | output_view :: vs, (name, spec) :: ts =>
    if spec.qiime_type.name = "Collection" then
      match (match output_view with
             | PyObj.pdict entries =>
               Option.some (Option.some (entries.map Prod.fst), entries.map Prod.snd)
             | PyObj.rescol entries =>
               Option.some (Option.some (entries.map Prod.fst), entries.map Prod.snd)
             | PyObj.plist elems => Option.some (Option.none, elems)
             | PyObj.obj _ _ => Option.none) with
      | Option.none => Except.error "TypeError: object of this type has no len()"
      | Option.some kv =>
        match coerce_collection_members provenance name spec kv.1 kv.2.length
            kv.2 0 [] scope with
        | Except.error e => Except.error e
        | Except.ok r =>
          match coerce_given_outputs vs ts r.2 provenance with
          | Except.error e => Except.error e
          | Except.ok rec1 =>
            Except.ok (OutResult.collection r.1 :: rec1.1, rec1.2)
    else
      match spec.view_type with
      | PyOpt.novalue =>
        Except.error ("Expected output view type, received " ++ output_view.type_of.name)
      | PyOpt.val c =>
        if output_view.type_of ≠ c then
          Except.error ("Expected output view type " ++ c.name ++ ", received "
            ++ output_view.type_of.name)
        else
          match create_output_artifact provenance name scope spec output_view with
          | Except.error e => Except.error e
          | Except.ok r =>
            match coerce_given_outputs vs ts r.2 provenance with
            | Except.error e => Except.error e
            | Except.ok rec1 => Except.ok (OutResult.single r.1 :: rec1.1, rec1.2)

/-! ## `HashableInvocation` -/

/-- A runtime argument value as `HashableInvocation` receives it: the
scalar shapes, nestable containers, artifacts (with persistent uuid),
metadata objects (with their serialized content) and pre-computed
metadata-info records (with their carried checksum). -/
inductive PyVal where
  | none
  | int (n : ℤ)
  | str (s : String)
  | bool (b : Bool)
  | list (xs : List PyVal)
  | dict (kvs : List (String × PyVal))
  | rescol (kvs : List (String × PyVal))
  | artifact (uuid : String)
  | metadata (content : String)
  | metadataInfo (md5 : String)

/-- Modelled from the spec: `md5sum` lives in `qiime2.core.util`, not in
this source file. §4.10: a metadata object "reduces to a content checksum
obtained by serializing it to a scratch location and hashing the bytes" —
embedded as a deterministic checksum tag of the serialized content. -/
def md5sum (content : String) : String := "md5-" ++ content

/-- The canonical hashable shape `_make_hashable` produces: scalars,
strings (uuids and checksums included) and arbitrarily nested tuples. -/
inductive HVal where
  | none
  | int (n : ℤ)
  | str (s : String)
  | bool (b : Bool)
  | tup (xs : List HVal)

mutual

/-- `HashableInvocation._make_hashable`: keyed containers become tuples of
`(key, value)` 2-tuples, lists become tuples, an artifact reduces to its
uuid, metadata to its content checksum, a metadata-info record to its
carried checksum, scalars pass through. -/
def makeHashable : PyVal → HVal
  | PyVal.dict kvs => HVal.tup (makeHashableKVs kvs)
  | PyVal.rescol kvs => HVal.tup (makeHashableKVs kvs)
  | PyVal.list xs => HVal.tup (makeHashableList xs)
  | PyVal.artifact uuid => HVal.str uuid
  | PyVal.metadata content => HVal.str (md5sum content)
  | PyVal.metadataInfo m => HVal.str m
  | PyVal.none => HVal.none
  | PyVal.int n => HVal.int n
  | PyVal.str s => HVal.str s
  | PyVal.bool b => HVal.bool b

def makeHashableList : List PyVal → List HVal
  | [] => []
  | x :: xs => makeHashable x :: makeHashableList xs

def makeHashableKVs : List (String × PyVal) → List HVal
  | [] => []
  | (k, v) :: rest => HVal.tup [HVal.str k, makeHashable v] :: makeHashableKVs rest

end

def is_dict_val : PyVal → Bool
  | PyVal.dict _ => true
  | _ => false

/-- `HashableInvocation._unify_dict`: merge a list of dicts into one dict,
later bindings overwriting earlier ones. -/
def unify_dict (collection : List PyVal) : List (String × PyVal) :=
  collection.foldl (fun acc elem =>
    match elem with
    | PyVal.dict kvs => kvs.foldl (fun a p => dinsert a p.1 p.2) acc
    | _ => acc) []

/-- `HashableInvocation._unify_dicts`, per argument record: an argument
whose value is a list of dicts is replaced by the merged dict. -/
def unify_argument : String × PyVal → String × PyVal
  | (name, PyVal.list xs) =>
    if xs.all is_dict_val then (name, PyVal.dict (unify_dict xs))
    else (name, PyVal.list xs)
  | p => p

/-- A canonical, hashable representation of one concrete call. -/
structure HashableInvocation where
  plugin_action : String
  arguments : HVal

/-- `HashableInvocation.__init__`: the arguments arrive as an ordered list
of single-key `{name: value}` records; each is unified, then the whole
list is canonicalized. -/
def mkHashableInvocation (plugin_action : String)
    (args : List (String × PyVal)) : HashableInvocation :=
  let unified := args.map unify_argument
  { plugin_action := plugin_action,
    arguments := makeHashable (PyVal.list (unified.map (fun p => PyVal.dict [p]))) }

/-- `HashableInvocation.__eq__`: action identity and canonicalized
arguments both equal. -/
def hi_eq (a b : HashableInvocation) : Prop :=
  a.plugin_action = b.plugin_action ∧ a.arguments = b.arguments

mutual

/-- A structural hash of canonical values (`__hash__` delegates to the
hash of the canonical tuple). -/
def hashHVal : HVal → ℕ
  | HVal.none => 0
  | HVal.int n => 1 + 5 * (2 * n.natAbs + (if 0 ≤ n then 0 else 1))
  | HVal.str s => 2 + 5 * (s.foldl (fun a c => 256 * a + c.toNat) 1)
  | HVal.bool b => 3 + 5 * (if b then 1 else 0)
  | HVal.tup xs => 4 + 5 * hashHValList xs

def hashHValList : List HVal → ℕ
  | [] => 0
  | x :: xs => 1 + 3 * hashHVal x + 7 * hashHValList xs

end

/-- `HashableInvocation.__hash__`:
`hash((self.plugin_action, self.arguments))`. -/
def hashInvocation (i : HashableInvocation) : ℕ :=
  hashHVal (HVal.tup [HVal.str i.plugin_action, i.arguments])

/-! ## §4.4 container-shape conversion: `_list_to_dict` / `_dict_to_list` -/

/-- `{str(idx): v for idx, v in enumerate(_input)}`, with the running
index made explicit. -/
def list_to_dict_from {α : Type} (i : ℕ) : List α → List (String × α)
  | [] => []
  | x :: xs => (toString i, x) :: list_to_dict_from (i + 1) xs

/-- `PipelineSignature._list_to_dict`. -/
def list_to_dict {α : Type} (xs : List α) : List (String × α) :=
  list_to_dict_from 0 xs

/-- `PipelineSignature._dict_to_list`: `list(_input.values())`. -/
def dict_to_list {α : Type} (d : List (String × α)) : List α :=
  d.map Prod.snd

/-! ## Concrete instances (used by witnesses and concrete checks) -/

/-- A concrete semantic type with universally-true membership. -/
def exSem : QType := QType.mk "IntSequence1" [] TypeKind.typeExp true false [] (fun _ => true)

/-- A concrete primitive type with universally-true membership. -/
def exPrim : QType := QType.mk "Int" [] TypeKind.typeExp false true [] (fun _ => true)

def exViewCls : PyClass := { name := "int" }

/-- A concrete `Collection[IntSequence1]`. -/
def exColl : QType := QType.mk "Collection" [exSem] TypeKind.typeExp true false [] (fun _ => true)

def exSpecPrim : ParameterSpec := { qiime_type := exPrim }

def exSpecSem : ParameterSpec := { qiime_type := exSem }

/-- A concrete variable-free signature. -/
def exSigFast : Sig :=
  { inputs := [("i", exSpecSem)], parameters := [], outputs := [("o", exSpecSem)],
    signature_order := [("i", exSpecSem)] }

/-- A concrete pipeline callable `def f(ctx, i1, p1)`. -/
def exCallablePipe : Callable :=
  { name := "f", formals := [{ name := "ctx" }, { name := "i1" }, { name := "p1" }] }

/-- The signature `mkPipelineSignature` builds for `exCallablePipe`. -/
def exSigPipe : Sig :=
  { inputs := [("i1", exSpecSem)], parameters := [("p1", exSpecPrim)],
    outputs := [("o", exSpecSem)],
    signature_order := [("i1", exSpecSem), ("p1", exSpecPrim)] }

/-- A concrete callable declaring `*args`. -/
def exCallableVariadic : Callable :=
  { name := "g", formals := [{ name := "args", kind := ParamKind.varPositional }] }

/-- The invocation whose argument arrives as a list of single-key dicts. -/
def exInvListForm : HashableInvocation :=
  mkHashableInvocation "act"
    [("x", PyVal.list [PyVal.dict [("a", PyVal.int 1)], PyVal.dict [("b", PyVal.int 2)]])]

/-- The same invocation with the argument as one merged mapping. -/
def exInvDictForm : HashableInvocation :=
  mkHashableInvocation "act" [("x", PyVal.dict [("a", PyVal.int 1), ("b", PyVal.int 2)])]

/-- A `Collection[IntSequence1]`-typed output spec. -/
def exSpecColl : ParameterSpec := { qiime_type := exColl, view_type := PyOpt.val exViewCls }

/-- A non-collection output spec with declared view type `int`. -/
def exSpecView : ParameterSpec := { qiime_type := exSem, view_type := PyOpt.val exViewCls }

theorem dict_to_list_list_to_dict_from {α : Type} (i : ℕ) (xs : List α) :
    dict_to_list (list_to_dict_from i xs) = xs := by
  induction xs generalizing i with
  | nil => rfl
  | cons x xs ih => simp [list_to_dict_from, dict_to_list] at ih ⊢; exact ih _

theorem list_to_dict_from_keys {α : Type} (i : ℕ) (xs : List α) :
    (list_to_dict_from i xs).map Prod.fst =
      ((List.range xs.length).map (fun j => toString (i + j))) := by
  induction xs generalizing i with
  | nil => rfl
  | cons x xs ih =>
    simp only [list_to_dict_from, List.map_cons, List.length_cons,
      List.range_succ_eq_map, List.map_map]
    congr 1
    rw [ih (i + 1)]
    apply List.map_congr_left
    intro j _
    have hj : i + 1 + j = i + (j + 1) := by omega
    simp [Function.comp, Nat.succ_eq_add_one, hj]

/-- C4: For every finite sequence of N elements, converting it to a keyed
mapping (`_list_to_dict`) and back (`_dict_to_list`) yields exactly the
original elements in the original order, and the mapping's keys are
exactly the strings "0" through "N-1" in ascending numeric order (the
decimal renderings of `0, 1, ..., N-1` in that order). -/
theorem c4_list_dict_roundtrip {α : Type} (xs : List α) :
    dict_to_list (list_to_dict xs) = xs ∧
    (list_to_dict xs).map Prod.fst = (List.range xs.length).map toString := by
  constructor
  · exact dict_to_list_list_to_dict_from 0 xs
  · have h := list_to_dict_from_keys 0 xs
    simpa using h

/-! ## Decimal-rendering injectivity (for the positional string keys) -/

theorem toDigitsCore_acc (b : ℕ) (f : ℕ) : ∀ (n : ℕ) (ds : List Char),
    Nat.toDigitsCore b f n ds = Nat.toDigitsCore b f n [] ++ ds := by
  induction f with
  | zero => intro n ds; simp [Nat.toDigitsCore]
  | succ f ih =>
    intro n ds
    simp only [Nat.toDigitsCore]
    by_cases h : n / b = 0
    · simp [h]
    · simp only [if_neg h]
      rw [ih (n / b) (Nat.digitChar (n % b) :: ds), ih (n / b) [Nat.digitChar (n % b)]]
      simp

def chVal (c : Char) : ℕ := c.toNat - 48

def parseD (a : ℕ) (l : List Char) : ℕ := l.foldl (fun acc c => 10 * acc + chVal c) a

theorem chVal_digitChar (d : ℕ) (h : d < 10) : chVal (Nat.digitChar d) = d := by
  interval_cases d <;> rfl

theorem parseD_toDigitsCore : ∀ (n : ℕ) (f : ℕ), n < f →
    parseD 0 (Nat.toDigitsCore 10 f n []) = n := by
  intro n
  induction n using Nat.strong_induction_on with
  | _ n ih =>
    intro f hf
    match f with
    | f + 1 =>
      simp only [Nat.toDigitsCore]
      by_cases h : n / 10 = 0
      · simp only [if_pos h]
        have hn : n < 10 := (Nat.div_eq_zero_iff (by norm_num)).mp h
        simp only [parseD, List.foldl_cons, List.foldl_nil, Nat.mul_zero, Nat.zero_add]
        rw [Nat.mod_eq_of_lt hn, chVal_digitChar n hn]
      · simp only [if_neg h]
        rw [toDigitsCore_acc]
        have hlt : n / 10 < n := Nat.div_lt_self (Nat.pos_of_ne_zero (by
          intro hz; rw [hz] at h; simp at h)) (by norm_num)
        have hfuel : n / 10 < f := by omega
        unfold parseD
        rw [List.foldl_append]
        have hih := ih (n / 10) hlt f hfuel
        unfold parseD at hih
        rw [hih]
        simp [chVal_digitChar (n % 10) (Nat.mod_lt n (by positivity))]
        omega

theorem natRepr_injective : Function.Injective Nat.repr := by
  intro m n h
  have hdig : Nat.toDigits 10 m = Nat.toDigits 10 n := by
    have h2 := congrArg String.data h
    simpa [Nat.repr, List.asString] using h2
  have hm' := parseD_toDigitsCore m (m + 1) (by omega)
  have hn' := parseD_toDigitsCore n (n + 1) (by omega)
  unfold Nat.toDigits at hdig
  rw [hdig, hn'] at hm'
  exact hm'.symm

theorem natToString_injective : Function.Injective (fun n : ℕ => toString n) :=
  fun _ _ h => natRepr_injective h

/-! ## C1: `check_types` -/

theorem check_types_ok_iff (order : List (String × ParameterSpec))
    (kwargs : List (String × Value))
    (hk : ∀ p ∈ order, (alookup kwargs p.1).isSome = true) :
    check_types order kwargs = Except.ok () ↔
      ∀ p ∈ order, ∀ v, alookup kwargs p.1 = Option.some v →
        type_violation p.2 v = false := by
  induction order with
  | nil => simp [check_types]
  | cons p rest ih =>
    obtain ⟨name, spec⟩ := p
    have hhead := hk (name, spec) (List.mem_cons_self _ _)
    obtain ⟨v, hv⟩ : ∃ v, alookup kwargs name = Option.some v := by
      cases h : alookup kwargs name with
      | none => rw [h] at hhead; simp at hhead
      | some v => exact ⟨v, rfl⟩
    have hrest := ih (fun q hq => hk q (List.mem_cons_of_mem _ hq))
    simp only [check_types, hv]
    by_cases hviol : type_violation spec v
    · simp only [if_pos hviol]
      constructor
      · intro h; exact absurd h (by simp)
      · intro hall
        have := hall (name, spec) (List.mem_cons_self _ _) v hv
        rw [hviol] at this
        exact absurd this (by simp)
    · rw [if_neg hviol, hrest]
      constructor
      · intro hall q hq v' hv'
        rcases List.mem_cons.mp hq with rfl | hq'
        · rw [hv] at hv'
          cases hv'
          exact Bool.of_not_eq_true hviol
        · exact hall q hq' v' hv'
      · intro hall q hq v' hv'
        exact hall q (List.mem_cons_of_mem _ hq) v' hv'

theorem check_types_error_cases (order : List (String × ParameterSpec))
    (kwargs : List (String × Value)) (e : CheckErr) :
    check_types order kwargs = Except.error e →
    (∃ name spec, (name, spec) ∈ order ∧ alookup kwargs name = Option.none ∧
      e = CheckErr.keyError name) ∨
    (∃ name spec v, (name, spec) ∈ order ∧ alookup kwargs name = Option.some v ∧
      type_violation spec v = true ∧ e = offender_error name v) := by
  induction order with
  | nil => intro h; simp [check_types] at h
  | cons p rest ih =>
    obtain ⟨name, spec⟩ := p
    intro h
    cases hv : alookup kwargs name with
    | none =>
      simp only [check_types, hv] at h
      left
      exact ⟨name, spec, List.mem_cons_self _ _, hv, (Except.error.injEq _ _).mp h.symm⟩
    | some v =>
      simp only [check_types, hv] at h
      by_cases hviol : type_violation spec v
      · rw [if_pos hviol] at h
        right
        exact ⟨name, spec, v, List.mem_cons_self _ _, hv, hviol,
          (Except.error.injEq _ _).mp h.symm⟩
      · rw [if_neg hviol] at h
        rcases ih h with ⟨n, s, hm, hl, he⟩ | ⟨n, s, v', hm, hl, hv', he⟩
        · exact Or.inl ⟨n, s, List.mem_cons_of_mem _ hm, hl, he⟩
        · exact Or.inr ⟨n, s, v', List.mem_cons_of_mem _ hm, hl, hv', he⟩

/-- C1: For every signature, every name in `signature_order` and every
value bound to that name, `check_types` succeeds iff every bound value is
a member of its declared qiime type or falls under the
`None`-with-`default=None` exception (`type_violation` is literally that
source condition); and whenever it raises, the error is
`offender_error name v` for an actual offending entry — i.e. one of the
four offender-specific categories (visualization-as-input, wrong-type
artifact, metadata-as-incompatible-parameter, generic primitive
mismatch), chosen by the offender's shape. -/
theorem c1_check_types (order : List (String × ParameterSpec))
    (kwargs : List (String × Value))
    (hk : ∀ p ∈ order, (alookup kwargs p.1).isSome = true) :
    (check_types order kwargs = Except.ok () ↔
      ∀ p ∈ order, ∀ v, alookup kwargs p.1 = Option.some v →
        type_violation p.2 v = false) ∧
    (∀ e, check_types order kwargs = Except.error e →
      ∃ name spec v, (name, spec) ∈ order ∧ alookup kwargs name = Option.some v ∧
        type_violation spec v = true ∧ e = offender_error name v) := by
  refine ⟨check_types_ok_iff order kwargs hk, ?_⟩
  intro e he
  rcases check_types_error_cases order kwargs e he with ⟨n, s, hm, hl, _⟩ | h
  · have := hk (n, s) hm
    rw [hl] at this
    exact absurd this (by simp)
  · exact h

/-- C1 witness: the theorem applied at a concrete one-entry signature
order and matching keyword arguments. -/
theorem c1_check_types_witness :
    check_types [("x", exSpecPrim)] [("x", Value.prim "1")] = Except.ok () := by
  refine ((c1_check_types [("x", exSpecPrim)] [("x", Value.prim "1")] ?_).1).mpr ?_
  · intro p hp
    rcases List.mem_singleton.mp hp with rfl
    rfl
  · intro p hp v hv
    rcases List.mem_singleton.mp hp with rfl
    have hv' : Option.some (Value.prim "1") = Option.some v := hv
    cases hv'
    rfl

/-! ## C9: `decode_parameters` -/

/-- C9 counterexample: passing the unknown keyword argument `"q"` (not a
declared parameter) to `decode_parameters` does not raise — the claim's
"results in a call-time error" is false at this input. -/
theorem c9_unknown_kwarg_not_rejected :
    decode_parameters (fun _ v => v) [("p", exSpecPrim)]
      [("p", Value.prim "1"), ("q", Value.prim "2")] =
      Except.ok [("p", Value.prim "1")] := rfl

/-- C9 (amended): `decode_parameters` succeeds iff every declared
parameter's name is present in the given keyword arguments; keyword
arguments with unknown names are ignored (they never cause an error), and
a missing declared name raises (`KeyError`). -/
theorem c9_decode_parameters_ok_iff (f : QType → Value → Value)
    (ps : List (String × ParameterSpec)) (kw : List (String × Value)) :
    (∃ r, decode_parameters f ps kw = Except.ok r) ↔
      ∀ p ∈ ps, (alookup kw p.1).isSome = true := by
  induction ps with
  | nil => simp [decode_parameters]
  | cons p rest ih =>
    obtain ⟨key, spec⟩ := p
    cases hv : alookup kw key with
    | none =>
      simp only [decode_parameters, hv]
      constructor
      · rintro ⟨r, hr⟩
        exact absurd hr (by simp)
      · intro hall
        have := hall (key, spec) (List.mem_cons_self _ _)
        rw [hv] at this
        exact absurd this (by simp)
    | some v =>
      simp only [decode_parameters, hv]
      cases hrec : decode_parameters f rest kw with
      | error e =>
        constructor
        · rintro ⟨r, hr⟩
          exact absurd hr (by simp)
        · intro hall
          have hr := ih.mpr (fun q hq => hall q (List.mem_cons_of_mem _ hq))
          obtain ⟨r, hr⟩ := hr
          rw [hrec] at hr
          exact absurd hr (by simp)
      | ok ps' =>
        constructor
        · intro _ q hq
          rcases List.mem_cons.mp hq with rfl | hq'
          · rw [hv]; rfl
          · exact ih.mp ⟨ps', hrec⟩ q hq'
        · intro _
          exact ⟨_, rfl⟩

/-- C9 witness: the amended equivalence applied at a concrete parameter
map and keyword arguments containing an extra unknown name. -/
theorem c9_decode_parameters_ok_iff_witness :
    ∃ r, decode_parameters (fun _ v => v) [("p", exSpecPrim)]
      [("p", Value.prim "1"), ("q", Value.prim "2")] = Except.ok r :=
  (c9_decode_parameters_ok_iff (fun _ v => v) [("p", exSpecPrim)]
    [("p", Value.prim "1"), ("q", Value.prim "2")]).mpr (by
      intro p hp
      rcases List.mem_singleton.mp hp with rfl
      rfl)

/-! ## C2: fast-path `solve_output` -/

/-- C2: For every signature in which no input, parameter or output spec
contains a free type variable, `solve_output` succeeds — for any match
oracle and any call arguments — and returns exactly the declared outputs
mapping (same names, same `ParameterSpec`s, same order). -/
theorem c2_solve_output_fast_path
    (mo : List (String × QType) → List (String × QType) →
      List (String × Value) → Except String (List (String × QType)))
    (sig : Sig) (kwargs : List (String × Value))
    (h : ∀ p ∈ sig.inputs ++ sig.parameters ++ sig.outputs,
      p.2.qiime_type.hasVars = false) :
    solve_output mo sig kwargs = Except.ok sig.outputs := by
  have hany : (sig.inputs ++ sig.parameters ++ sig.outputs).any
      (fun p => p.2.qiime_type.hasVars) = false := by
    rw [List.any_eq_false]
    intro p hp
    simp [h p hp]
  have hfind : sig.outputs.find? (fun p => !p.2.qiime_type.is_concrete) =
      Option.none := by
    rw [List.find?_eq_none]
    intro p hp
    have hv := h p (by simp [hp])
    simp only [QType.hasVars, Bool.not_eq_false'] at hv
    simp [QType.is_concrete, hv]
  simp only [solve_output, hany, Bool.false_eq_true, if_false, hfind]

/-- C2 witness: the fast path at a concrete variable-free signature. -/
theorem c2_solve_output_witness :
    solve_output (fun _ _ _ => Except.error "unused") exSigFast [] =
      Except.ok exSigFast.outputs :=
  c2_solve_output_fast_path _ exSigFast [] (by
    intro p hp
    simp only [exSigFast, List.append_nil, List.nil_append, List.cons_append,
      List.mem_cons, List.mem_singleton, List.not_mem_nil, or_false] at hp
    rcases hp with rfl | rfl <;> rfl)

/-! ## Success inversion for signature construction -/

theorem mk_signature_with_ok (cb : List String)
    (vo : List (String × ParameterSpec) → Except String Unit)
    (vv : List (String × ParameterSpec) → List (String × ParameterSpec) →
      List (String × ParameterSpec) → Except String Unit)
    (c : Callable) (inputs parameters outputs : List (String × QType))
    (idescs pdescs odescs : List (String × String)) (sig : Sig)
    (h : mk_signature_with cb vo vv c inputs parameters outputs idescs pdescs odescs
      = Except.ok sig) :
    parse_signature cb c inputs parameters outputs idescs pdescs odescs =
      Except.ok (sig.inputs, sig.parameters, sig.outputs, sig.signature_order) ∧
    assert_valid_inputs sig.inputs = Except.ok () ∧
    assert_valid_parameters sig.parameters = Except.ok () ∧
    vo sig.outputs = Except.ok () ∧
    vv sig.inputs sig.parameters sig.outputs = Except.ok () := by
  unfold mk_signature_with at h
  cases hps : parse_signature cb c inputs parameters outputs idescs pdescs odescs with
  | error e => rw [hps] at h; exact absurd h (by simp [Bind.bind, Except.bind])
  | ok r =>
    obtain ⟨ai, ap, ao, so⟩ := r
    rw [hps] at h
    simp only [Bind.bind, Except.bind] at h
    cases hai : assert_valid_inputs ai with
    | error e => rw [hai] at h; exact absurd h (by simp)
    | ok u =>
      cases u
      rw [hai] at h
      cases hap : assert_valid_parameters ap with
      | error e => rw [hap] at h; exact absurd h (by simp)
      | ok u =>
        cases u
        rw [hap] at h
        cases hao : vo ao with
        | error e => rw [hao] at h; exact absurd h (by simp)
        | ok u =>
          cases u
          rw [hao] at h
          cases hav : vv ai ap ao with
          | error e => rw [hav] at h; exact absurd h (by simp)
          | ok u =>
            cases u
            rw [hav] at h
            simp only [pure, Except.pure, Except.ok.injEq] at h
            subst h
            exact ⟨by simp [hps], hai, hap, hao, hav⟩

/-! ## C7: kind-specific view-type rules -/

/-- C7: `MethodSignature._assert_valid_views` succeeds iff every input,
parameter and output spec has a view type;
`PipelineSignature._assert_valid_views` succeeds iff none has one; and
any successfully constructed Method (resp. Pipeline) signature therefore
has view types everywhere (resp. nowhere) — a construction violating the
respective rule fails. -/
theorem c7_view_type_rules :
    (∀ ins ps outs : List (String × ParameterSpec),
       (method_assert_valid_views ins ps outs = Except.ok () ↔
         ∀ p ∈ ins ++ ps ++ outs, p.2.has_view_type = true)) ∧
    (∀ ins ps outs : List (String × ParameterSpec),
       (pipeline_assert_valid_views ins ps outs = Except.ok () ↔
         ∀ p ∈ ins ++ ps ++ outs, p.2.has_view_type = false)) ∧
    (∀ c inputs parameters outputs idescs pdescs odescs sig,
       mkMethodSignature c inputs parameters outputs idescs pdescs odescs =
         Except.ok sig →
       ∀ p ∈ sig.inputs ++ sig.parameters ++ sig.outputs,
         p.2.has_view_type = true) ∧
    (∀ c inputs parameters outputs idescs pdescs odescs sig,
       mkPipelineSignature c inputs parameters outputs idescs pdescs odescs =
         Except.ok sig →
       ∀ p ∈ sig.inputs ++ sig.parameters ++ sig.outputs,
         p.2.has_view_type = false) := by
  have hm : ∀ ins ps outs : List (String × ParameterSpec),
      (method_assert_valid_views ins ps outs = Except.ok () ↔
        ∀ p ∈ ins ++ ps ++ outs, p.2.has_view_type = true) := by
    intro ins ps outs
    unfold method_assert_valid_views
    cases hf : (ins ++ ps ++ outs).find? (fun p => !p.2.has_view_type) with
    | none =>
      simp only [iff_true_intro rfl, true_iff]
      rw [List.find?_eq_none] at hf
      intro p hp
      have := hf p hp
      simpa using this
    | some p =>
      constructor
      · intro h; exact absurd h (by simp)
      · intro hall
        have hmem := List.mem_of_find?_eq_some hf
        have hpred := List.find?_some hf
        rw [hall p hmem] at hpred
        exact absurd hpred (by simp)
  have hp : ∀ ins ps outs : List (String × ParameterSpec),
      (pipeline_assert_valid_views ins ps outs = Except.ok () ↔
        ∀ p ∈ ins ++ ps ++ outs, p.2.has_view_type = false) := by
    intro ins ps outs
    unfold pipeline_assert_valid_views
    cases hf : (ins ++ ps ++ outs).find? (fun p => p.2.has_view_type) with
    | none =>
      simp only [iff_true_intro rfl, true_iff]
      rw [List.find?_eq_none] at hf
      intro p hp
      have := hf p hp
      simpa using this
    | some p =>
      constructor
      · intro h; exact absurd h (by simp)
      · intro hall
        have hmem := List.mem_of_find?_eq_some hf
        have hpred := List.find?_some hf
        rw [hall p hmem] at hpred
        exact absurd hpred (by simp)
  refine ⟨hm, hp, ?_, ?_⟩
  · intro c inputs parameters outputs idescs pdescs odescs sig h
    have hinv := mk_signature_with_ok [] method_assert_valid_outputs
      method_assert_valid_views c inputs parameters outputs idescs pdescs odescs sig h
    exact (hm sig.inputs sig.parameters sig.outputs).mp hinv.2.2.2.2
  · intro c inputs parameters outputs idescs pdescs odescs sig h
    have hinv := mk_signature_with_ok ["ctx"] assert_valid_outputs
      pipeline_assert_valid_views c inputs parameters outputs idescs pdescs odescs sig h
    exact (hp sig.inputs sig.parameters sig.outputs).mp hinv.2.2.2.2

/-- C7 witness: the pipeline rule applied at concrete view-less specs. -/
theorem c7_view_type_rules_witness :
    pipeline_assert_valid_views [("i", exSpecSem)] [] [("o", exSpecSem)] =
      Except.ok () := by
  refine (c7_view_type_rules.2.1 _ _ _).mpr ?_
  intro p hp
  simp only [List.nil_append, List.cons_append, List.append_nil, List.mem_cons,
    List.mem_singleton, List.not_mem_nil, or_false] at hp
  rcases hp with rfl | rfl <;> rfl

/-! ## C8: `signature_order` partitions inputs and parameters -/

theorem parse_loop_partition (cb : List String) :
    ∀ (formals : List FormalParam) (builtins : List String) (st st' : ParseState),
    parse_loop cb builtins formals st = Except.ok st' →
    (formals.map (fun f => f.name)).Nodup →
    (∀ f ∈ formals, f.name ∉ st.ai.map Prod.fst ∧ f.name ∉ st.ap.map Prod.fst) →
    (∀ n, n ∈ st.so.map Prod.fst ↔
      (n ∈ st.ai.map Prod.fst ∨ n ∈ st.ap.map Prod.fst)) →
    (∀ n, ¬(n ∈ st.ai.map Prod.fst ∧ n ∈ st.ap.map Prod.fst)) →
    ((∀ n, n ∈ st'.so.map Prod.fst ↔
       (n ∈ st'.ai.map Prod.fst ∨ n ∈ st'.ap.map Prod.fst)) ∧
     (∀ n, ¬(n ∈ st'.ai.map Prod.fst ∧ n ∈ st'.ap.map Prod.fst))) := by
  intro formals
  induction formals with
  | nil =>
    intro builtins st st' h _ _ hmem hdisj
    simp only [parse_loop, Except.ok.injEq] at h
    subst h
    exact ⟨hmem, hdisj⟩
  | cons f rest ih =>
    intro builtins st st' h hnd hfresh hmem hdisj
    have hndrest : (rest.map (fun f => f.name)).Nodup :=
      (List.nodup_cons.mp (by simpa using hnd)).2
    have hfname : f.name ∉ rest.map (fun f => f.name) :=
      (List.nodup_cons.mp (by simpa using hnd)).1
    cases builtins with
    | cons b bs =>
      simp only [parse_loop] at h
      by_cases hvk : (f.kind == ParamKind.varPositional ||
          f.kind == ParamKind.varKeyword) = true
      · rw [if_pos hvk] at h; exact absurd h (by simp)
      · rw [if_neg hvk] at h
        by_cases hb : (b != f.name) = true
        · rw [if_pos hb] at h; exact absurd h (by simp)
        · rw [if_neg hb] at h
          exact ih bs st st' h hndrest
            (fun g hg => hfresh g (List.mem_cons_of_mem _ hg)) hmem hdisj
    | nil =>
      simp only [parse_loop] at h
      by_cases hvk : (f.kind == ParamKind.varPositional ||
          f.kind == ParamKind.varKeyword) = true
      · rw [if_pos hvk] at h; exact absurd h (by simp)
      · rw [if_neg hvk] at h
        have hffresh := hfresh f (List.mem_cons_self _ _)
        cases hpi : apop st.inputsLeft f.name with
        | some p =>
          obtain ⟨qt, inputs'⟩ := p
          simp only [hpi] at h
          refine ih [] _ st' h hndrest ?_ ?_ ?_
          · intro g hg
            have hg' := hfresh g (List.mem_cons_of_mem _ hg)
            have hgne : g.name ≠ f.name := by
              intro hEq
              exact hfname (hEq ▸ List.mem_map_of_mem (fun f => f.name) hg)
            simp only [List.map_append, List.map_cons, List.map_nil,
              List.mem_append, List.mem_singleton]
            exact ⟨by simp [hg'.1, hgne], hg'.2⟩
          · intro n
            have := hmem n
            simp only [List.map_append, List.map_cons, List.map_nil,
              List.mem_append, List.mem_singleton]
            tauto
          · intro n
            simp only [List.map_append, List.map_cons, List.map_nil,
              List.mem_append, List.mem_singleton]
            rintro ⟨hin | rfl, hinp⟩
            · exact hdisj n ⟨hin, hinp⟩
            · exact hffresh.2 hinp
        | none =>
          simp only [hpi] at h
          cases hpp : apop st.parametersLeft f.name with
          | some p =>
            obtain ⟨qt, params'⟩ := p
            simp only [hpp] at h
            refine ih [] _ st' h hndrest ?_ ?_ ?_
            · intro g hg
              have hg' := hfresh g (List.mem_cons_of_mem _ hg)
              have hgne : g.name ≠ f.name := by
                intro hEq
                exact hfname (hEq ▸ List.mem_map_of_mem (fun f => f.name) hg)
              simp only [List.map_append, List.map_cons, List.map_nil,
                List.mem_append, List.mem_singleton]
              exact ⟨hg'.1, by simp [hg'.2, hgne]⟩
            · intro n
              have := hmem n
              simp only [List.map_append, List.map_cons, List.map_nil,
                List.mem_append, List.mem_singleton]
              tauto
            · intro n
              simp only [List.map_append, List.map_cons, List.map_nil,
                List.mem_append, List.mem_singleton]
              rintro ⟨hin, hinp | rfl⟩
              · exact hdisj n ⟨hin, hinp⟩
              · exact hffresh.1 hin
          | none =>
            simp only [hpp] at h
            by_cases hc : cb.contains f.name = true
            · rw [if_pos hc] at h
              exact ih [] st st' h hndrest
                (fun g hg => hfresh g (List.mem_cons_of_mem _ hg)) hmem hdisj
            · rw [if_neg hc] at h
              exact absurd h (by simp)

theorem parse_signature_ok_inv (cb : List String) (c : Callable)
    (inputs parameters outputs : List (String × QType))
    (idescs pdescs odescs : List (String × String))
    (ai ap ao so : List (String × ParameterSpec))
    (h : parse_signature cb c inputs parameters outputs idescs pdescs odescs =
      Except.ok (ai, ap, ao, so)) :
    ∃ st', parse_loop cb cb c.formals
        ⟨[], [], [], inputs, parameters, idescs, pdescs⟩ = Except.ok st' ∧
      st'.ai = ai ∧ st'.ap = ap ∧ st'.so = so := by
  unfold parse_signature at h
  cases hpl : parse_loop cb cb c.formals
      ⟨[], [], [], inputs, parameters, idescs, pdescs⟩ with
  | error e => rw [hpl] at h; exact absurd h (by simp)
  | ok st =>
    rw [hpl] at h
    simp only [] at h
    refine ⟨st, rfl, ?_⟩
    by_cases h1 : (!st.inputsLeft.isEmpty || !st.parametersLeft.isEmpty) = true
    · rw [if_pos h1] at h; exact absurd h (by simp)
    · rw [if_neg h1] at h
      cases hro : (match c.ret with
             | PyOpt.val views =>
               if views.length != outputs.length then
                 Except.error "Number of registered outputs does not match annotation"
               else Except.ok (build_outputs_annotated outputs views odescs)
             | PyOpt.novalue => Except.ok (build_outputs_plain outputs odescs)) with
      | error e => rw [hro] at h; exact absurd h (by simp)
      | ok aod =>
        rw [hro] at h
        simp only [] at h
        by_cases h2 : (!st.idescsLeft.isEmpty || !st.pdescsLeft.isEmpty ||
            !aod.2.isEmpty) = true
        · rw [if_pos h2] at h; exact absurd h (by simp)
        · rw [if_neg h2] at h
          simp only [Except.ok.injEq, Prod.mk.injEq] at h
          exact ⟨h.1, h.2.1, h.2.2.2⟩

/-- C8: For every successfully constructed signature (any kind: the
builtin-argument list and the output/view validators are arbitrary) whose
callable has distinct formal parameter names (Python guarantees this),
every name of `signature_order` appears in exactly one of `inputs` and
`parameters`, and conversely every name of `inputs` or `parameters`
appears in `signature_order`. -/
theorem c8_signature_order_partition (cb : List String)
    (vo : List (String × ParameterSpec) → Except String Unit)
    (vv : List (String × ParameterSpec) → List (String × ParameterSpec) →
      List (String × ParameterSpec) → Except String Unit)
    (c : Callable) (inputs parameters outputs : List (String × QType))
    (idescs pdescs odescs : List (String × String)) (sig : Sig)
    (h : mk_signature_with cb vo vv c inputs parameters outputs idescs pdescs odescs
      = Except.ok sig)
    (hnd : (c.formals.map (fun f => f.name)).Nodup) :
    (∀ n, n ∈ sig.signature_order.map Prod.fst ↔
       (n ∈ sig.inputs.map Prod.fst ∨ n ∈ sig.parameters.map Prod.fst)) ∧
    (∀ n, ¬(n ∈ sig.inputs.map Prod.fst ∧ n ∈ sig.parameters.map Prod.fst)) := by
  have hinv := mk_signature_with_ok cb vo vv c inputs parameters outputs
    idescs pdescs odescs sig h
  obtain ⟨st', hpl, hai, hap, hso⟩ := parse_signature_ok_inv cb c inputs parameters
    outputs idescs pdescs odescs sig.inputs sig.parameters sig.outputs
    sig.signature_order hinv.1
  have hpart := parse_loop_partition cb c.formals cb _ st' hpl hnd
    (by intro g hg; simp) (by intro n; simp) (by intro n; simp)
  rw [hai, hap, hso] at hpart
  exact hpart

/-- C8 witness: the theorem applied to a concrete pipeline construction
`def f(ctx, i1, p1)` with one input, one parameter and one output. -/
theorem c8_signature_order_partition_witness :
    (∀ n, n ∈ exSigPipe.signature_order.map Prod.fst ↔
       (n ∈ exSigPipe.inputs.map Prod.fst ∨ n ∈ exSigPipe.parameters.map Prod.fst)) ∧
    (∀ n, ¬(n ∈ exSigPipe.inputs.map Prod.fst ∧
       n ∈ exSigPipe.parameters.map Prod.fst)) :=
  c8_signature_order_partition ["ctx"] assert_valid_outputs
    pipeline_assert_valid_views exCallablePipe [("i1", exSem)] [("p1", exPrim)]
    [("o", exSem)] [] [] [] exSigPipe rfl (by decide)

/-! ## C10: variadic formals are rejected at registration time -/

theorem parse_loop_variadic_error (cb : List String) :
    ∀ (formals : List FormalParam) (builtins : List String) (st : ParseState),
    (∃ f ∈ formals, f.kind = ParamKind.varPositional ∨
      f.kind = ParamKind.varKeyword) →
    ∃ e, parse_loop cb builtins formals st = Except.error e := by
  intro formals
  induction formals with
  | nil =>
    rintro _ _ ⟨f, hf, _⟩
    exact absurd hf (List.not_mem_nil f)
  | cons f rest ih =>
    rintro builtins st ⟨g, hg, hgk⟩
    cases builtins with
    | cons b bs =>
      simp only [parse_loop]
      by_cases hvk : (f.kind == ParamKind.varPositional ||
          f.kind == ParamKind.varKeyword) = true
      · rw [if_pos hvk]; exact ⟨_, rfl⟩
      · rw [if_neg hvk]
        have hgrest : g ∈ rest := by
          rcases List.mem_cons.mp hg with rfl | hr
          · exact absurd (by rcases hgk with hk | hk <;> simp [hk]) hvk
          · exact hr
        by_cases hb : (b != f.name) = true
        · rw [if_pos hb]; exact ⟨_, rfl⟩
        · rw [if_neg hb]; exact ih bs st ⟨g, hgrest, hgk⟩
    | nil =>
      simp only [parse_loop]
      by_cases hvk : (f.kind == ParamKind.varPositional ||
          f.kind == ParamKind.varKeyword) = true
      · rw [if_pos hvk]; exact ⟨_, rfl⟩
      · rw [if_neg hvk]
        have hgrest : g ∈ rest := by
          rcases List.mem_cons.mp hg with rfl | hr
          · exact absurd (by rcases hgk with hk | hk <;> simp [hk]) hvk
          · exact hr
        cases hpi : apop st.inputsLeft f.name with
        | some p =>
          obtain ⟨qt, inputs'⟩ := p
          simp only [hpi]
          exact ih [] _ ⟨g, hgrest, hgk⟩
        | none =>
          simp only [hpi]
          cases hpp : apop st.parametersLeft f.name with
          | some p =>
            obtain ⟨qt, params'⟩ := p
            simp only [hpp]
            exact ih [] _ ⟨g, hgrest, hgk⟩
          | none =>
            simp only [hpp]
            by_cases hc : cb.contains f.name = true
            · rw [if_pos hc]; exact ih [] st ⟨g, hgrest, hgk⟩
            · rw [if_neg hc]; exact ⟨_, rfl⟩

/-- C10: Signature construction (any kind, any declared inputs,
parameters, outputs and descriptions) fails whenever the callable
declares a variadic formal parameter (`*args`-style variable-positional
or `**kwargs`-style variable-keyword). -/
theorem c10_variadic_rejected (cb : List String)
    (vo : List (String × ParameterSpec) → Except String Unit)
    (vv : List (String × ParameterSpec) → List (String × ParameterSpec) →
      List (String × ParameterSpec) → Except String Unit)
    (c : Callable) (inputs parameters outputs : List (String × QType))
    (idescs pdescs odescs : List (String × String))
    (hv : ∃ f ∈ c.formals, f.kind = ParamKind.varPositional ∨
      f.kind = ParamKind.varKeyword) :
    ∃ e, mk_signature_with cb vo vv c inputs parameters outputs idescs pdescs odescs
      = Except.error e := by
  obtain ⟨e, hpe⟩ := parse_loop_variadic_error cb c.formals cb
    ⟨[], [], [], inputs, parameters, idescs, pdescs⟩ hv
  have hps : parse_signature cb c inputs parameters outputs idescs pdescs odescs =
      Except.error e := by
    unfold parse_signature
    rw [hpe]
  refine ⟨e, ?_⟩
  unfold mk_signature_with
  rw [hps]
  rfl

/-- C10 witness: the theorem applied to a concrete callable declaring
`*args`. -/
theorem c10_variadic_rejected_witness :
    ∃ e, mkPipelineSignature exCallableVariadic [] [] [] [] [] [] =
      Except.error e :=
  c10_variadic_rejected ["ctx"] assert_valid_outputs pipeline_assert_valid_views
    exCallableVariadic [] [] [] [] [] []
    ⟨{ name := "args", kind := ParamKind.varPositional },
      by simp [exCallableVariadic], Or.inl rfl⟩

/-! ## C3: `HashableInvocation` equality, hashing and canonicalization -/

/-- C3: `HashableInvocation` equality is an equivalence relation; two
invocations are equal iff their action identities and canonicalized
argument sequences are equal; equal invocations have equal hashes; and
the argument value `[{"a": 1}, {"b": 2}]` (a list of single-key dicts)
canonicalizes to the same representation as the same argument given as
the mapping `{"a": 1, "b": 2}`. -/
theorem c3_hashable_invocation_eq :
    (∀ a : HashableInvocation, hi_eq a a) ∧
    (∀ a b : HashableInvocation, hi_eq a b → hi_eq b a) ∧
    (∀ a b c : HashableInvocation, hi_eq a b → hi_eq b c → hi_eq a c) ∧
    (∀ a b : HashableInvocation, hi_eq a b ↔
      (a.plugin_action = b.plugin_action ∧ a.arguments = b.arguments)) ∧
    (∀ a b : HashableInvocation, hi_eq a b →
      hashInvocation a = hashInvocation b) ∧
    hi_eq exInvListForm exInvDictForm := by
  refine ⟨fun a => ⟨rfl, rfl⟩,
    fun a b h => ⟨h.1.symm, h.2.symm⟩,
    fun a b c h1 h2 => ⟨h1.1.trans h2.1, h1.2.trans h2.2⟩,
    fun a b => Iff.rfl,
    fun a b h => ?_, ⟨rfl, rfl⟩⟩
  unfold hashInvocation
  rw [h.1, h.2]

/-- C3 witness: reflexivity and hash agreement at the two concrete
invocations. -/
theorem c3_hashable_invocation_witness :
    hi_eq exInvListForm exInvListForm ∧
    hashInvocation exInvListForm = hashInvocation exInvDictForm :=
  ⟨c3_hashable_invocation_eq.1 exInvListForm,
   c3_hashable_invocation_eq.2.2.2.2.1 exInvListForm exInvDictForm
     c3_hashable_invocation_eq.2.2.2.2.2⟩

/-! ## C6: non-collection outputs require the exact declared view type -/

/-- C6: For an output declared with a non-collection type and a declared
view type `c`, `coerce_given_outputs` fails exactly when the produced
view's concrete runtime type differs from `c` — in particular a strict
subtype of `c` is rejected — and when they are equal it produces exactly
one output artifact built from the view at the declared type. -/
theorem c6_single_output_view_type (name : String) (spec : ParameterSpec)
    (c : PyClass) (v : PyObj) (scope : Scope) (prov : String)
    (hnc : is_collection_type spec.qiime_type = false)
    (hvt : spec.view_type = PyOpt.val c) :
    ((∃ e, coerce_given_outputs [v] [(name, spec)] scope prov = Except.error e) ↔
      v.type_of ≠ c) ∧
    (v.type_of.strictSubclassOf c = true →
      ∃ e, coerce_given_outputs [v] [(name, spec)] scope prov = Except.error e) ∧
    (v.type_of = c →
      ∃ scope', coerce_given_outputs [v] [(name, spec)] scope prov =
        Except.ok ([OutResult.single
          (Artifact.mk spec.qiime_type v spec.view_type (prov_fork prov name))],
          scope')) := by
  have hname : ¬ spec.qiime_type.name = "Collection" := by
    intro hEq
    simp [is_collection_type, hEq] at hnc
  have hsubne : v.type_of.strictSubclassOf c = true → v.type_of ≠ c := by
    intro hsub
    unfold PyClass.strictSubclassOf at hsub
    simp only [Bool.and_eq_true, decide_eq_true_eq] at hsub
    exact hsub.2
  by_cases hty : v.type_of = c
  · have hok : coerce_given_outputs [v] [(name, spec)] scope prov =
        Except.ok ([OutResult.single
          (Artifact.mk spec.qiime_type v spec.view_type (prov_fork prov name))],
          (((scope.add_reference (prov_fork prov name)).add_parent_reference
            (Artifact.mk spec.qiime_type v spec.view_type
              (prov_fork prov name))).2)) := by
      simp only [coerce_given_outputs, if_neg hname, hvt]
      rw [if_neg (by simp [hty])]
      simp only [create_output_artifact, hnc, Bool.false_eq_true, if_false,
        Scope.add_parent_reference]
      rw [hvt]
    refine ⟨?_, ?_, fun _ => ⟨_, hok⟩⟩
    · constructor
      · rintro ⟨e, he⟩
        rw [hok] at he
        exact absurd he (by simp)
      · intro hne
        exact absurd hty hne
    · intro hsub
      exact absurd hty (hsubne hsub)
  · have herr : coerce_given_outputs [v] [(name, spec)] scope prov =
        Except.error ("Expected output view type " ++ c.name ++ ", received "
          ++ v.type_of.name) := by
      simp only [coerce_given_outputs, if_neg hname, hvt]
      rw [if_pos hty]
    exact ⟨⟨fun _ => hty, fun _ => ⟨_, herr⟩⟩, fun _ => ⟨_, herr⟩,
      fun hc => absurd hc hty⟩

/-- C6 witness: the exact-match case at a concrete non-collection output
spec. -/
theorem c6_single_output_view_type_witness :
    ∃ scope', coerce_given_outputs [PyObj.obj exViewCls "v0"] [("o", exSpecView)]
        {} "call" =
      Except.ok ([OutResult.single
        (Artifact.mk exSpecView.qiime_type (PyObj.obj exViewCls "v0")
          exSpecView.view_type (prov_fork "call" "o"))], scope') :=
  (c6_single_output_view_type "o" exSpecView exViewCls (PyObj.obj exViewCls "v0")
    {} "call" rfl rfl).2.2 rfl

/-! ## C5: collection outputs are materialized as keyed results -/

theorem dinsert_of_not_mem {α : Type} (kvs : List (String × α)) (k : String)
    (v : α) (h : k ∉ kvs.map Prod.fst) : dinsert kvs k v = kvs ++ [(k, v)] := by
  induction kvs with
  | nil => rfl
  | cons p rest ih =>
    obtain ⟨k', v'⟩ := p
    simp only [List.map_cons, List.mem_cons] at h
    push_neg at h
    simp only [dinsert]
    rw [if_neg (fun hEq => h.1 hEq.symm), ih h.2]
    simp

theorem ccm_unkeyed (prov nm : String) (spec : ParameterSpec) (ft : QType)
    (frest : List QType) (hcoll : is_collection_type spec.qiime_type = true)
    (hfields : spec.qiime_type.fields = ft :: frest) (size : ℕ) :
    ∀ (views : List PyObj) (idx : ℕ) (acc : List (String × Artifact)) (scope : Scope),
    (∀ k ∈ acc.map Prod.fst, ∃ j, j < idx ∧ k = toString j) →
    ∃ entries scope',
      coerce_collection_members prov nm spec Option.none size views idx acc scope =
        Except.ok (acc ++ entries, scope') ∧
      entries.map Prod.fst =
        (List.range views.length).map (fun j => toString (idx + j)) ∧
      entries.map (fun p => p.2.view) = views ∧
      (∀ p ∈ entries, p.2.qiime_type = ft) := by
  have hcoa : ∀ (cname : String) (sc : Scope) (vw : PyObj),
      create_output_artifact prov cname sc spec vw =
        Except.ok (Artifact.mk ft vw spec.view_type (prov_fork prov cname),
          ((sc.add_reference (prov_fork prov cname)).add_parent_reference
            (Artifact.mk ft vw spec.view_type (prov_fork prov cname))).2) := by
    intro cname sc vw
    simp only [create_output_artifact, hcoll, hfields, if_true,
      Scope.add_parent_reference]
  intro views
  induction views with
  | nil =>
    intro idx acc scope hacc
    exact ⟨[], scope, by simp [coerce_collection_members], by simp, rfl, by simp⟩
  | cons view rest ih =>
    intro idx acc scope hacc
    have hfresh : toString idx ∉ acc.map Prod.fst := by
      intro hmem
      obtain ⟨j, hj, hEq⟩ := hacc _ hmem
      have := natToString_injective hEq
      omega
    have hacc' : ∀ k ∈ (dinsert acc (toString idx)
          (Artifact.mk ft view spec.view_type (prov_fork prov
            (create_collection_name nm (toString idx) idx size)))).map Prod.fst,
        ∃ j, j < idx + 1 ∧ k = toString j := by
      rw [dinsert_of_not_mem _ _ _ hfresh]
      intro k hk
      simp only [List.map_append, List.map_cons, List.map_nil, List.mem_append,
        List.mem_singleton] at hk
      rcases hk with hk | rfl
      · obtain ⟨j, hj, hEq⟩ := hacc k hk
        exact ⟨j, by omega, hEq⟩
      · exact ⟨idx, by omega, rfl⟩
    obtain ⟨entries', scope', hrun, hkeys, hviews, hq⟩ := ih (idx + 1) _
      (((scope.add_reference (prov_fork prov
          (create_collection_name nm (toString idx) idx size))).add_parent_reference
        (Artifact.mk ft view spec.view_type (prov_fork prov
          (create_collection_name nm (toString idx) idx size)))).2) hacc'
    refine ⟨(toString idx, Artifact.mk ft view spec.view_type (prov_fork prov
        (create_collection_name nm (toString idx) idx size))) :: entries',
      scope', ?_, ?_, ?_, ?_⟩
    · simp only [coerce_collection_members, hcoa]
      rw [hrun, dinsert_of_not_mem _ _ _ hfresh]
      simp [List.append_assoc]
    · simp only [List.map_cons, hkeys, List.length_cons]
      simp only [List.range_succ_eq_map, List.map_cons, List.map_map]
      congr 1
      apply List.map_congr_left
      intro j _
      have hj : idx + 1 + j = idx + (j + 1) := by omega
      simp [Function.comp, Nat.succ_eq_add_one, hj]
    · simp only [List.map_cons, hviews]
    · intro p hp
      rcases List.mem_cons.mp hp with rfl | hp'
      · rfl
      · exact hq p hp'

theorem ccm_keyed (prov nm : String) (spec : ParameterSpec) (ft : QType)
    (frest : List QType) (hcoll : is_collection_type spec.qiime_type = true)
    (hfields : spec.qiime_type.fields = ft :: frest) (ks : List String)
    (size : ℕ) (hnd : ks.Nodup) :
    ∀ (views : List PyObj) (idx : ℕ) (acc : List (String × Artifact)) (scope : Scope),
    ks.length = idx + views.length →
    (∀ j k, idx ≤ j → ks.get? j = Option.some k → k ∉ acc.map Prod.fst) →
    ∃ entries scope',
      coerce_collection_members prov nm spec (Option.some ks) size views idx acc scope =
        Except.ok (acc ++ entries, scope') ∧
      entries.map Prod.fst = ks.drop idx ∧
      entries.map (fun p => p.2.view) = views ∧
      (∀ p ∈ entries, p.2.qiime_type = ft) := by
  have hcoa : ∀ (cname : String) (sc : Scope) (vw : PyObj),
      create_output_artifact prov cname sc spec vw =
        Except.ok (Artifact.mk ft vw spec.view_type (prov_fork prov cname),
          ((sc.add_reference (prov_fork prov cname)).add_parent_reference
            (Artifact.mk ft vw spec.view_type (prov_fork prov cname))).2) := by
    intro cname sc vw
    simp only [create_output_artifact, hcoll, hfields, if_true,
      Scope.add_parent_reference]
  intro views
  induction views with
  | nil =>
    intro idx acc scope hlen hfr
    simp only [List.length_nil, Nat.add_zero] at hlen
    refine ⟨[], scope, by simp [coerce_collection_members], ?_, rfl, by simp⟩
    rw [List.drop_eq_nil_of_le (by omega)]
    rfl
  | cons view rest ih =>
    intro idx acc scope hlen hfr
    have hidx : idx < ks.length := by simp at hlen; omega
    have hget : ks.get? idx = Option.some (ks.get ⟨idx, hidx⟩) :=
      List.get?_eq_get hidx
    have hfresh : ks.get ⟨idx, hidx⟩ ∉ acc.map Prod.fst :=
      hfr idx _ (Nat.le_refl idx) hget
    have hfr' : ∀ j k, idx + 1 ≤ j → ks.get? j = Option.some k →
        k ∉ (dinsert acc (ks.get ⟨idx, hidx⟩)
          (Artifact.mk ft view spec.view_type (prov_fork prov
            (create_collection_name nm (ks.get ⟨idx, hidx⟩) idx size)))).map Prod.fst := by
      intro j k hj hk
      rw [dinsert_of_not_mem _ _ _ hfresh]
      simp only [List.map_append, List.map_cons, List.map_nil, List.mem_append,
        List.mem_singleton]
      rintro (hmem | rfl)
      · exact hfr j k (by omega) hk hmem
      · obtain ⟨hjlt, hjget⟩ := List.get?_eq_some.mp hk
        have : (⟨j, hjlt⟩ : Fin ks.length) = ⟨idx, hidx⟩ :=
          hnd.get_inj_iff.mp hjget
        have : j = idx := by
          have := Fin.mk.injEq j hjlt idx hidx ▸ congrArg Fin.val this
          simpa using this
        omega
    obtain ⟨entries', scope', hrun, hkeys, hviews, hq⟩ := ih (idx + 1) _
      (((scope.add_reference (prov_fork prov
          (create_collection_name nm (ks.get ⟨idx, hidx⟩) idx size))).add_parent_reference
        (Artifact.mk ft view spec.view_type (prov_fork prov
          (create_collection_name nm (ks.get ⟨idx, hidx⟩) idx size)))).2)
      (by simp at hlen ⊢; omega) hfr'
    refine ⟨(ks.get ⟨idx, hidx⟩, Artifact.mk ft view spec.view_type (prov_fork prov
        (create_collection_name nm (ks.get ⟨idx, hidx⟩) idx size))) :: entries',
      scope', ?_, ?_, ?_, ?_⟩
    · simp only [coerce_collection_members, hget, hcoa]
      rw [hrun, dinsert_of_not_mem _ _ _ hfresh]
      simp [List.append_assoc]
    · simp only [List.map_cons, hkeys]
      rw [List.drop_eq_getElem_cons hidx]
      rfl
    · simp only [List.map_cons, hviews]
    · intro p hp
      rcases List.mem_cons.mp hp with rfl | hp'
      · rfl
      · exact hq p hp'

/-- C5: For an output declared `Collection[ft, ...]`, `coerce_given_outputs`
on a produced view of N unkeyed members yields one keyed result collection
with exactly N entries keyed "0" through "N-1" in order, each wrapping
exactly one member instantiated at the collection's element type (its
first field); and when the produced view exposes keys (a keyed view with
distinct keys, as Python dicts guarantee), those keys are preserved
instead of positional indices. -/
theorem c5_coerce_collection_outputs (name : String) (spec : ParameterSpec)
    (ft : QType) (frest : List QType)
    (hname : spec.qiime_type.name = "Collection")
    (hfields : spec.qiime_type.fields = ft :: frest)
    (scope : Scope) (prov : String) :
    (∀ vs : List PyObj, ∃ entries scope',
       coerce_given_outputs [PyObj.plist vs] [(name, spec)] scope prov =
         Except.ok ([OutResult.collection entries], scope') ∧
       entries.map Prod.fst = (List.range vs.length).map toString ∧
       entries.map (fun p => p.2.view) = vs ∧
       (∀ p ∈ entries, p.2.qiime_type = ft)) ∧
    (∀ kvs : List (String × PyObj), (kvs.map Prod.fst).Nodup →
       ∃ entries scope',
       coerce_given_outputs [PyObj.pdict kvs] [(name, spec)] scope prov =
         Except.ok ([OutResult.collection entries], scope') ∧
       entries.map Prod.fst = kvs.map Prod.fst ∧
       entries.map (fun p => p.2.view) = kvs.map Prod.snd ∧
       (∀ p ∈ entries, p.2.qiime_type = ft)) := by
  have hcoll : is_collection_type spec.qiime_type = true := by
    simp [is_collection_type, hname]
  constructor
  · intro vs
    obtain ⟨entries, scope', hrun, hkeys, hviews, hq⟩ :=
      ccm_unkeyed prov name spec ft frest hcoll hfields vs.length vs 0 [] scope
        (by simp)
    refine ⟨entries, scope', ?_, ?_, hviews, hq⟩
    · simp only [coerce_given_outputs, if_pos hname, hrun]
      simp [coerce_given_outputs]
    · rw [hkeys]
      apply List.map_congr_left
      intro j _
      simp
  · intro kvs hnd
    obtain ⟨entries, scope', hrun, hkeys, hviews, hq⟩ :=
      ccm_keyed prov name spec ft frest hcoll hfields (kvs.map Prod.fst)
        (kvs.map Prod.snd).length hnd (kvs.map Prod.snd) 0 [] scope (by simp)
        (by simp)
    refine ⟨entries, scope', ?_, ?_, hviews, hq⟩
    · simp only [coerce_given_outputs, if_pos hname, hrun]
      simp [coerce_given_outputs]
    · simpa using hkeys

/-- C5 witness: three unkeyed members under a concrete
`Collection[IntSequence1]` output spec. -/
theorem c5_coerce_collection_outputs_witness :
    ∃ entries scope',
      coerce_given_outputs
          [PyObj.plist [PyObj.obj exViewCls "a", PyObj.obj exViewCls "b",
            PyObj.obj exViewCls "c"]]
          [("out", exSpecColl)] {} "call" =
        Except.ok ([OutResult.collection entries], scope') ∧
      entries.map Prod.fst = (List.range 3).map toString ∧
      entries.map (fun p => p.2.view) = [PyObj.obj exViewCls "a",
        PyObj.obj exViewCls "b", PyObj.obj exViewCls "c"] ∧
      (∀ p ∈ entries, p.2.qiime_type = exSem) :=
  (c5_coerce_collection_outputs "out" exSpecColl exSem [] rfl rfl {} "call").1
    [PyObj.obj exViewCls "a", PyObj.obj exViewCls "b", PyObj.obj exViewCls "c"]

end QiimeSig
